import Mathlib

/-!
# Verification of the silentserver storage engine

Shallow embedding of the storage layer of the `silentserver` repository
(`src/storage/block_data.rs`, `src/storage/block_index.rs`,
`src/storage/flat_file_store.rs`, `src/storage/errors.rs`) together with
theorems settling the specification's testable properties.

Bytes are modelled as `Nat` values below 256, byte strings as `List Nat`,
`u32`/`u64` machine integers as `Nat` (with explicit `% 2 ^ 32` where the
source truncates with `as u32`).  Fallible Rust functions returning
`Result<T, StorageError>` become `Except StorageError T`; methods taking
`&mut self` additionally thread the (possibly unchanged) state through the
return value, mirroring the source's early-return control flow.
-/

deriving instance DecidableEq for Except

namespace SilentServer

/-- `StorageError` from `src/storage/errors.rs`.  The `IoError`/`DbError`
payloads are irrelevant to the claims and dropped; the in-process sled and
file operations of the model never fail. -/
inductive StorageError where
  | DeserializeError (msg : String)
  | CrcMismatch
  | InvalidData (msg : String)
  | IoError
  | DbError
  | EntryNotFound
  | OrphanedEntry
  | InvalidHeight
  | CorruptDB (msg : String)
deriving DecidableEq

/-- Little-endian bytes of a `u32` (`u32::to_le_bytes`); for `n ≥ 2 ^ 32`
this is the encoding of `n % 2 ^ 32`, matching Rust's `as u32` wrap. -/
def u32le (n : Nat) : List Nat :=
  [n % 256, n / 256 % 256, n / 2 ^ 16 % 256, n / 2 ^ 24 % 256]

/-- Little-endian bytes of a `u64` (`u64::to_le_bytes`). -/
def u64le (n : Nat) : List Nat :=
  [n % 256, n / 256 % 256, n / 2 ^ 16 % 256, n / 2 ^ 24 % 256,
   n / 2 ^ 32 % 256, n / 2 ^ 40 % 256, n / 2 ^ 48 % 256, n / 2 ^ 56 % 256]

/-- Read a little-endian unsigned integer from a byte list
(`u32::from_le_bytes` / `u64::from_le_bytes`). -/
def fromLe (l : List Nat) : Nat :=
  l.foldr (fun b acc => b + 256 * acc) 0

/-- The (bit-reversed) CRC-32 polynomial used by the `crc32fast` crate. -/
def CRC_POLY : Nat := 0xEDB88320

/-- One bit step of the reflected CRC-32: shift right, conditionally
xor the polynomial.  `crc32fast` computes the same IEEE CRC-32 function
(via tables/SIMD); this is its bit-serial definition. -/
def crcStepBit (c : Nat) : Nat :=
  if c % 2 = 1 then (c / 2) ^^^ CRC_POLY else c / 2

/-- Eight bit steps (one byte's worth of shifting). -/
def crcStep8 (c : Nat) : Nat :=
  crcStepBit (crcStepBit (crcStepBit (crcStepBit
    (crcStepBit (crcStepBit (crcStepBit (crcStepBit c)))))))

/-- `Hasher::update` for a single byte: xor the byte into the state and
run eight bit steps. -/
def crcUpdateByte (c b : Nat) : Nat :=
  crcStep8 (c ^^^ b)

/-- `Hasher::update` over a byte string. -/
def crcUpdate (c : Nat) (l : List Nat) : Nat :=
  l.foldl crcUpdateByte c

/-- `Hasher::new()` followed by one `update` over `l` and `finalize()`:
the standard CRC-32 of `l`. -/
def crc32 (l : List Nat) : Nat :=
  crcUpdate 0xFFFFFFFF l ^^^ 0xFFFFFFFF

/-- The per-tweak hashing loop of `BlockData::serialize`: a fresh hasher,
one `update` per tweak, then `finalize`. -/
def crcOfTweaks (tweaks : List (List Nat)) : Nat :=
  (tweaks.foldl (fun c t => crcUpdate c t) 0xFFFFFFFF) ^^^ 0xFFFFFFFF

/-- `TWEAK_SIZE` from `src/storage/block_data.rs`. -/
def TWEAK_SIZE : Nat := 33

/-- `BlockData` from `src/storage/block_data.rs`: a 32-byte block hash and
an ordered list of 33-byte tweaks. -/
structure BlockData where
  blockhash : List Nat
  tweaks : List (List Nat)
deriving DecidableEq

/-- `BlockData::serialize`:
`[blockhash (32)] [lenTweaks (u32 LE)] [CRC32 of tweaks (u32 LE)] [tweaks]`.
The length field is `tweaks.len() as u32` (the `% 2 ^ 32` wrap is performed
inside `u32le`). -/
def BlockData.serialize (bd : BlockData) : List Nat :=
  bd.blockhash ++ u32le bd.tweaks.length ++ u32le (crcOfTweaks bd.tweaks)
    ++ bd.tweaks.flatten

/-- `BlockData::deserialize`.  Positions mirror the source's running `pos`
cursor: hash at 0, length field at 32, CRC at 36, tweak payload at 40. -/
def BlockData.deserialize (data : List Nat) : Except StorageError BlockData :=
  if data.length < 32 then
    .error (.DeserializeError "insufficient data for blockhash")
  else
    let blockhash := data.take 32
    if data.length < 32 + 4 then
      .error (.DeserializeError "insufficient data for lenTweaks")
    else
      let len_tweaks := fromLe ((data.drop 32).take 4)
      if data.length < 36 + 4 then
        .error (.DeserializeError "insufficient data for CRC")
      else
        let crc_stored := fromLe ((data.drop 36).take 4)
        let tweaks_bytes_len := len_tweaks * TWEAK_SIZE
        if data.length < 40 + tweaks_bytes_len then
          .error (.DeserializeError "insufficient data for tweaks")
        else
          let tweaks_data := (data.drop 40).take tweaks_bytes_len
          let crc_computed := crc32 tweaks_data
          if crc_computed ≠ crc_stored then
            .error .CrcMismatch
          else
            .ok { blockhash := blockhash,
                  tweaks := (List.range len_tweaks).map
                    (fun i => (tweaks_data.drop (i * TWEAK_SIZE)).take TWEAK_SIZE) }

/-- Flip bit `k` of the byte at position `pos` (used to state the checksum
sensitivity property). -/
def flipBitAt (l : List Nat) (pos k : Nat) : List Nat :=
  l.set pos ((l.getD pos 0) ^^^ 2 ^ k)

/-- `IndexEntry` from `src/storage/block_index.rs`. -/
structure IndexEntry where
  file_number : Nat
  offset : Nat
  length : Nat
deriving DecidableEq

/-- `IndexEntry::serialize`: 24 bytes,
`[file_number (8 LE)] [offset (8 LE)] [length (8 LE)]`. -/
def IndexEntry.serialize (e : IndexEntry) : List Nat :=
  u64le e.file_number ++ u64le e.offset ++ u64le e.length

/-- `IndexEntry::deserialize`. -/
def IndexEntry.deserialize (data : List Nat) : Option IndexEntry :=
  if data.length ≠ 24 then none
  else some { file_number := fromLe (data.take 8),
              offset := fromLe ((data.drop 8).take 8),
              length := fromLe ((data.drop 16).take 8) }

/-- A sled tree modelled as a partial map; `insertKV`/`removeKV` model
`Tree::insert`/`Tree::remove`. -/
def insertKV {α β : Type} [DecidableEq α] (m : α → Option β) (k : α) (v : β) :
    α → Option β :=
  fun x => if x = k then some v else m x

/-- `Tree::remove`. -/
def removeKV {α β : Type} [DecidableEq α] (m : α → Option β) (k : α) :
    α → Option β :=
  fun x => if x = k then none else m x

/-- `Index` from `src/storage/block_index.rs`.  The three sled trees are
partial maps from keys to stored byte strings.  Hash keys are the 32 raw
bytes; height keys use the `Nat` height directly (the source keys by
`height.to_le_bytes()`, which is injective on `u32`).  `next_height` is a
`u32` in the source; `Nat` is used here, so the wrap/panic of `u32`
arithmetic at `0` and `2 ^ 32 - 1` (unreachable in any state the claims
quantify over) is not modelled. -/
structure Index where
  index_db : List Nat → Option (List Nat)
  height_to_hash : Nat → Option (List Nat)
  hash_to_height : List Nat → Option (List Nat)
  next_height : Nat

/-- `Index::insert_block`.  On the error path the state is returned
unchanged, mirroring the early `return`. -/
def Index.insert_block (i : Index) (height : Nat) (blockhash : List Nat)
    (entry : IndexEntry) : Except StorageError Unit × Index :=
  if height ≠ i.next_height then (.error .InvalidHeight, i)
  else
    (.ok (),
     { index_db := insertKV i.index_db blockhash entry.serialize,
       height_to_hash := insertKV i.height_to_hash height blockhash,
       hash_to_height := insertKV i.hash_to_height blockhash (u32le height),
       next_height := i.next_height + 1 })

/-- `Index::get_block_entry`. -/
def Index.get_block_entry (i : Index) (blockhash : List Nat) :
    Except StorageError IndexEntry :=
  match i.index_db blockhash with
  | none => .error .EntryNotFound
  | some data =>
    if data.length = 1 ∧ data.getD 0 0 = 0 then .error .OrphanedEntry
    else match IndexEntry.deserialize data with
      | some e => .ok e
      | none => .error (.InvalidData "Invalid index entry format")

/-- `Index::get_blockhash_by_height`. -/
def Index.get_blockhash_by_height (i : Index) (height : Nat) :
    Except StorageError (List Nat) :=
  match i.height_to_hash height with
  | none => .error .EntryNotFound
  | some data =>
    if data.length ≠ 32 then .error (.InvalidData "Invalid blockhash length")
    else .ok data

/-- `Index::get_height_by_blockhash`. -/
def Index.get_height_by_blockhash (i : Index) (blockhash : List Nat) :
    Except StorageError Nat :=
  match i.hash_to_height blockhash with
  | none => .error .EntryNotFound
  | some data =>
    if data.length ≠ 4 then .error (.InvalidData "Invalid height data length")
    else .ok (fromLe data)

/-- `Index::remove_block`.  `i.next_height - 1` is `Nat` subtraction; the
source's `u32` subtraction can only differ at `next_height = 0`, which is
unreachable whenever the `if let Ok(height)` branch is taken. -/
def Index.remove_block (i : Index) (blockhash : List Nat) :
    Except StorageError Unit × Index :=
  if (i.index_db blockhash).isNone then (.error .EntryNotFound, i)
  else
    match i.get_height_by_blockhash blockhash with
    | .ok height =>
      if height ≠ i.next_height - 1 then (.error .InvalidHeight, i)
      else
        (.ok (),
         { index_db := insertKV i.index_db blockhash [0],
           height_to_hash := removeKV i.height_to_hash height,
           hash_to_height := removeKV i.hash_to_height blockhash,
           next_height := i.next_height - 1 })
    | .error _ => (.error .EntryNotFound, i)

/-- `Index::get_current_height`: `next_height as i32 - 1` (the `i32` wrap
at `next_height ≥ 2 ^ 31` is unreachable in the claims' states). -/
def Index.get_current_height (i : Index) : Int :=
  (i.next_height : Int) - 1

/-- `MAGIC_BYTES = *b"SPSDATA1"` from `src/storage/flat_file_store.rs`. -/
def MAGIC_BYTES : List Nat := [83, 80, 83, 68, 65, 84, 65, 49]

/-- `MAX_BLOCKDATA_SIZE` (128 MB). -/
def MAX_BLOCKDATA_SIZE : Nat := 128 * 1024 * 1024

/-- `FlatFileStore`.  `files` lists the contents of the existing flat files
`sps000000.dat, sps000001.dat, …` in order (the store's invariant is that
the file numbers form a contiguous run starting at 0). -/
structure FlatFileStore where
  files : List (List Nat)
  index : Index
  current_file_number : Nat

/-- `File::create` on file number `i`: truncates an existing file or (for
`i = files.length`, the only in-range case reachable through the store)
appends a fresh one. -/
def writeFileTrunc (files : List (List Nat)) (i : Nat) (content : List Nat) :
    List (List Nat) :=
  if i < files.length then files.set i content else files ++ [content]

/-- `FlatFileStore::create_new_file`: bump the active file number and create
the new file holding only the magic header. -/
def FlatFileStore.create_new_file (st : FlatFileStore) : FlatFileStore :=
  { st with current_file_number := st.current_file_number + 1,
            files := writeFileTrunc st.files (st.current_file_number + 1) MAGIC_BYTES }

/-- `FlatFileStore::add_block`.  Note two points transcribed directly from
the source: after `create_new_file` the record is appended to the file
named by the *stale* `file_path` (bound before rotation), and the
`IndexEntry` is built from the *new* `current_file_number` together with
the offset measured in the old file.  The source's
`.expect("Failed to insert block into index")` panic is modelled as an
error return. -/
def FlatFileStore.add_block (st : FlatFileStore) (block_data : BlockData)
    (height : Nat) : Except StorageError Unit × FlatFileStore :=
  let file_path := st.current_file_number
  if file_path < st.files.length then
    let offset := (st.files.getD file_path []).length
    let serialized := block_data.serialize
    let st1 := if offset + serialized.length ≥ MAX_BLOCKDATA_SIZE
               then st.create_new_file else st
    let st2 := { st1 with
                 files := st1.files.set file_path
                   ((st1.files.getD file_path []) ++ serialized) }
    let entry : IndexEntry :=
      { file_number := st2.current_file_number, offset := offset,
        length := serialized.length }
    match st2.index.insert_block height block_data.blockhash entry with
    | (.ok _, idx) => (.ok (), { st2 with index := idx })
    | (.error e, idx) => (.error e, { st2 with index := idx })
  else (.error .IoError, st)

/-- The loop body of `FlatFileStore::add_block_bulk` over the zipped pairs. -/
def addBlocksPairs (st : FlatFileStore) :
    List (BlockData × Nat) → Except StorageError Unit × FlatFileStore
  | [] => (.ok (), st)
  | (b, h) :: rest =>
    match st.add_block b h with
    | (.ok _, st1) => addBlocksPairs st1 rest
    | (.error e, st1) => (.error e, st1)

/-- `FlatFileStore::add_block_bulk`: iterates over
`blocks.iter().zip(heights.iter())`. -/
def FlatFileStore.add_block_bulk (st : FlatFileStore) (blocks : List BlockData)
    (heights : List Nat) : Except StorageError Unit × FlatFileStore :=
  addBlocksPairs st (blocks.zip heights)

/-- `BlockDataReader` state: the current file number and byte position
(the store's `files` list is passed to each operation in place of the
borrowed `&FlatFileStore`). -/
structure BlockDataReader where
  current_file_number : Nat
  current_position : Nat
deriving DecidableEq

/-- `BlockDataReader::move_to_next_file`.  The file number is incremented
before the existence check, so on failure the reader keeps the bumped
number, exactly as the source's `self.current_file_number += 1` does.
A file `spsN.dat` exists iff `N < files.length` (contiguous numbering). -/
def moveToNextFile (files : List (List Nat)) (r : BlockDataReader) :
    Except StorageError Unit × BlockDataReader :=
  let r1 := { r with current_file_number := r.current_file_number + 1 }
  if r1.current_file_number < files.length then
    (.ok (), { r1 with current_position := MAGIC_BYTES.length })
  else
    (.error (.InvalidData "Next block file does not exist"), r1)

/-- `Read::read` for `BlockDataReader` with a caller buffer of size `n`:
read up to `n` bytes at the current position; on a zero-byte read, move to
the next file and retry (the source's recursive `self.read`).  A fileless
position reads zero bytes. -/
def readerRead (files : List (List Nat)) (r : BlockDataReader) (n : Nat) :
    List Nat × BlockDataReader :=
  let fileData := files.getD r.current_file_number []
  let chunk := (fileData.drop r.current_position).take n
  if chunk.length = 0 then
    if _h : r.current_file_number + 1 < files.length then
      readerRead files
        { current_file_number := r.current_file_number + 1,
          current_position := MAGIC_BYTES.length } n
    else
      ([], { r with current_file_number := r.current_file_number + 1 })
  else
    (chunk, { r with current_position := r.current_position + chunk.length })
termination_by files.length - r.current_file_number

/-- `Read::read_to_end` on a `BlockDataReader`: call `read` with a buffer
of size `n` until a read returns zero bytes, concatenating the chunks.
`fuel` bounds the iteration count (any fuel beyond the stream length
suffices). -/
def readAll (files : List (List Nat)) (r : BlockDataReader)
    (fuel n : Nat) : List Nat :=
  match fuel with
  | 0 => []
  | fuel' + 1 =>
    let out := readerRead files r n
    if out.1.length = 0 then []
    else out.1 ++ readAll files out.2 fuel' n

/-- The logical byte stream a `BlockDataReader` positioned at file `i`,
offset `pos` should deliver: the rest of file `i`, then every later file
with its 8-byte magic header skipped. -/
def streamFrom (files : List (List Nat)) (i pos : Nat) : List Nat :=
  ((files.getD i []).drop pos) ++
    (((files.drop (i + 1)).map (fun f => f.drop 8)).flatten)

/-- The physical file contents produced by appending the serialized records
`p` after the magic header. -/
def fileOf (p : List BlockData) : List Nat :=
  MAGIC_BYTES ++ (p.map BlockData.serialize).flatten

/-- The decimal digit `d` as a character (`'0'` has code 48). -/
def digitChar (d : Nat) : Char := Char.ofNat (48 + d)

/-- Zero-padded 6-digit rendering of a file number below `10 ^ 6`, as
produced by `format!("{:06}", n)` (larger numbers never arise in the
claims).  Paths and file names are modelled as character lists so that
they compute. -/
def pad6 (n : Nat) : List Char :=
  [digitChar (n / 100000 % 10), digitChar (n / 10000 % 10),
   digitChar (n / 1000 % 10), digitChar (n / 100 % 10),
   digitChar (n / 10 % 10), digitChar (n % 10)]

/-- `block_file_name!`: `sps{:06}.dat`. -/
def blockFileName (n : Nat) : List Char :=
  's' :: 'p' :: 's' :: (pad6 n ++ ['.', 'd', 'a', 't'])

/-- `str::starts_with` on character lists. -/
def strStartsWith : List Char → List Char → Bool
  | _, [] => true
  | [], _ :: _ => false
  | a :: s, b :: p => a = b && strStartsWith s p

/-- The block-data directory scan of `FlatFileStore::initialize`
(`flat_file_store.rs` lines 44-62): when `sps000000.dat` is absent, walk
the directory entries and fail with `CorruptDB` if any entry's *full path*
(`DirEntry::path()`, i.e. the directory joined with `/` and the file name)
starts with `"sps"`; otherwise create file 0.  `entries` lists the names
of the regular files present in `block_data_dir`. -/
def initializeBlockDataScan (block_data_dir : List Char)
    (entries : List (List Char)) : Except StorageError Unit :=
  let block_data_exists := blockFileName 0 ∈ entries
  if ¬ block_data_exists then
    if entries.any (fun name =>
        strStartsWith (block_data_dir ++ '/' :: name) ['s', 'p', 's']) then
      .error (.CorruptDB "Missing sps00000.dat, but other files present")
    else
      .ok ()
  else
    .ok ()

/-- Inverse of `crcStepBit` on 32-bit states (proof device: it witnesses
that one CRC bit step is injective). -/
def crcUnstepBit (o : Nat) : Nat :=
  if 2 ^ 31 ≤ o then 2 * (o ^^^ CRC_POLY) + 1 else 2 * o

/-- Eight inverse bit steps (proof device matching `crcStep8`). -/
def crcUnstep8 (o : Nat) : Nat :=
  crcUnstepBit (crcUnstepBit (crcUnstepBit (crcUnstepBit
    (crcUnstepBit (crcUnstepBit (crcUnstepBit (crcUnstepBit o)))))))

/-- A fresh `Index` (what `Index::initialize` yields on a new database). -/
def emptyIndex : Index :=
  { index_db := fun _ => none, height_to_hash := fun _ => none,
    hash_to_height := fun _ => none, next_height := 0 }

/-- A fresh `FlatFileStore`: one file holding only the magic header. -/
def freshStore : FlatFileStore :=
  { files := [MAGIC_BYTES], index := emptyIndex, current_file_number := 0 }

/-- Concrete 32-byte hash used by witnesses. -/
def hashA : List Nat := List.replicate 32 1

/-- A second, distinct concrete 32-byte hash. -/
def hashB : List Nat := List.replicate 32 2

/-- Concrete `IndexEntry` used by witnesses. -/
def entryA : IndexEntry := { file_number := 1, offset := 1000, length := 500 }

/-- Concrete record with no tweaks (40 serialized bytes). -/
def bdA : BlockData := { blockhash := hashA, tweaks := [] }

/-- Concrete record with one tweak (73 serialized bytes). -/
def bdB : BlockData := { blockhash := hashB, tweaks := [List.replicate 33 7] }

/-- The contents of a flat file that has grown to exactly
`MAX_BLOCKDATA_SIZE - 40` bytes. -/
def fullFile : List Nat :=
  MAGIC_BYTES ++ List.replicate (MAX_BLOCKDATA_SIZE - 48) 0

/-- A store whose active file 0 is 40 bytes short of the size cap, so that
appending the 40-byte record `bdA` triggers rotation. -/
def rotStore : FlatFileStore :=
  { files := [fullFile], index := emptyIndex, current_file_number := 0 }

/-! ## Byte-encoding lemmas -/

@[simp] theorem u32le_length (n : Nat) : (u32le n).length = 4 := rfl

@[simp] theorem u64le_length (n : Nat) : (u64le n).length = 8 := rfl

theorem fromLe_u32le (n : Nat) : fromLe (u32le n) = n % 2 ^ 32 := by
  simp only [fromLe, u32le, List.foldr]
  omega

theorem fromLe_u64le (n : Nat) : fromLe (u64le n) = n % 2 ^ 64 := by
  simp only [fromLe, u64le, List.foldr]
  omega

theorem indexEntry_roundtrip (e : IndexEntry)
    (hf : e.file_number < 2 ^ 64) (ho : e.offset < 2 ^ 64)
    (hl : e.length < 2 ^ 64) :
    IndexEntry.deserialize e.serialize = some e := by
  have h8 : (u64le e.file_number).length = 8 := rfl
  simp only [IndexEntry.deserialize, IndexEntry.serialize]
  rw [List.append_assoc]
  have hlen : (u64le e.file_number ++ (u64le e.offset ++ u64le e.length)).length = 24 := by
    simp
  rw [if_neg (by omega)]
  rw [List.take_left' h8, List.drop_left' h8]
  have h8b : (u64le e.offset).length = 8 := rfl
  rw [List.take_left' h8b]
  have h16 : (u64le e.file_number ++ u64le e.offset).length = 16 := by simp
  rw [← List.append_assoc, List.drop_left' h16]
  have htake : (u64le e.length).take 8 = u64le e.length :=
    List.take_of_length_le (by simp)
  rw [htake, fromLe_u64le, fromLe_u64le, fromLe_u64le,
      Nat.mod_eq_of_lt hf, Nat.mod_eq_of_lt ho, Nat.mod_eq_of_lt hl]

/-! ## CRC-32 state lemmas

One bit step of the reflected CRC-32 is a bijection on 32-bit states
(`crcUnstepBit` inverts it); hence processing a byte is injective in the
state and, for a fixed state, injective in the byte.  This is what makes
the checksum detect every single-bit (indeed single-byte) change. -/

theorem crcStepBit_lt (c : Nat) (hc : c < 2 ^ 32) : crcStepBit c < 2 ^ 32 := by
  unfold crcStepBit
  split
  · exact Nat.xor_lt_two_pow (by omega) (by decide)
  · omega

theorem xor_poly_high (a : Nat) (ha : a < 2 ^ 31) : 2 ^ 31 ≤ a ^^^ CRC_POLY := by
  by_contra hlt
  push_neg at hlt
  have h2 : a ^^^ (a ^^^ CRC_POLY) = CRC_POLY := by
    rw [← Nat.xor_assoc, Nat.xor_self, Nat.zero_xor]
  have h3 := Nat.xor_lt_two_pow ha hlt
  rw [h2] at h3
  exact absurd h3 (by decide)

theorem crcUnstep_step (c : Nat) (hc : c < 2 ^ 32) :
    crcUnstepBit (crcStepBit c) = c := by
  unfold crcStepBit crcUnstepBit
  rcases Nat.mod_two_eq_zero_or_one c with h | h
  · rw [if_neg (show ¬ c % 2 = 1 by omega),
        if_neg (show ¬ 2 ^ 31 ≤ c / 2 by omega)]
    omega
  · rw [if_pos h, if_pos (xor_poly_high _ (by omega)), Nat.xor_cancel_right]
    omega

theorem crcStepBit_inj (c₁ c₂ : Nat) (h₁ : c₁ < 2 ^ 32) (h₂ : c₂ < 2 ^ 32)
    (h : crcStepBit c₁ = crcStepBit c₂) : c₁ = c₂ := by
  rw [← crcUnstep_step c₁ h₁, ← crcUnstep_step c₂ h₂, h]

theorem crcStep8_lt (c : Nat) (hc : c < 2 ^ 32) : crcStep8 c < 2 ^ 32 := by
  unfold crcStep8
  exact crcStepBit_lt _ (crcStepBit_lt _ (crcStepBit_lt _ (crcStepBit_lt _
    (crcStepBit_lt _ (crcStepBit_lt _ (crcStepBit_lt _ (crcStepBit_lt _ hc)))))))

theorem crcStep8_unstep (c : Nat) (hc : c < 2 ^ 32) :
    crcUnstep8 (crcStep8 c) = c := by
  have h1 : crcStepBit c < 2 ^ 32 := crcStepBit_lt _ hc
  have h2 : crcStepBit (crcStepBit c) < 2 ^ 32 := crcStepBit_lt _ h1
  have h3 := crcStepBit_lt _ h2
  have h4 := crcStepBit_lt _ h3
  have h5 := crcStepBit_lt _ h4
  have h6 := crcStepBit_lt _ h5
  have h7 := crcStepBit_lt _ h6
  unfold crcStep8 crcUnstep8
  rw [crcUnstep_step _ h7, crcUnstep_step _ h6, crcUnstep_step _ h5,
      crcUnstep_step _ h4, crcUnstep_step _ h3, crcUnstep_step _ h2,
      crcUnstep_step _ h1, crcUnstep_step _ hc]

theorem crcStep8_inj (c₁ c₂ : Nat) (h₁ : c₁ < 2 ^ 32) (h₂ : c₂ < 2 ^ 32)
    (h : crcStep8 c₁ = crcStep8 c₂) : c₁ = c₂ := by
  rw [← crcStep8_unstep c₁ h₁, ← crcStep8_unstep c₂ h₂, h]

theorem crcUpdateByte_lt (c b : Nat) (hc : c < 2 ^ 32) (hb : b < 2 ^ 32) :
    crcUpdateByte c b < 2 ^ 32 :=
  crcStep8_lt _ (Nat.xor_lt_two_pow hc hb)

theorem crcUpdateByte_state_inj (b c₁ c₂ : Nat) (hb : b < 2 ^ 32)
    (h₁ : c₁ < 2 ^ 32) (h₂ : c₂ < 2 ^ 32)
    (h : crcUpdateByte c₁ b = crcUpdateByte c₂ b) : c₁ = c₂ := by
  have hx := crcStep8_inj _ _ (Nat.xor_lt_two_pow h₁ hb)
    (Nat.xor_lt_two_pow h₂ hb) h
  rw [← Nat.xor_cancel_right b c₁, hx, Nat.xor_cancel_right]

theorem crcUpdateByte_byte_inj (c b₁ b₂ : Nat) (hc : c < 2 ^ 32)
    (hb₁ : b₁ < 2 ^ 32) (hb₂ : b₂ < 2 ^ 32)
    (h : crcUpdateByte c b₁ = crcUpdateByte c b₂) : b₁ = b₂ := by
  have hx := crcStep8_inj _ _ (Nat.xor_lt_two_pow hc hb₁)
    (Nat.xor_lt_two_pow hc hb₂) h
  have e : ∀ b : Nat, c ^^^ (c ^^^ b) = b := fun b => by
    rw [← Nat.xor_assoc, Nat.xor_self, Nat.zero_xor]
  rw [← e b₁, hx, e b₂]

theorem crcUpdate_append (c : Nat) (l₁ l₂ : List Nat) :
    crcUpdate c (l₁ ++ l₂) = crcUpdate (crcUpdate c l₁) l₂ :=
  List.foldl_append ..

theorem crcUpdate_lt (l : List Nat) (c : Nat) (hc : c < 2 ^ 32)
    (hl : ∀ b ∈ l, b < 2 ^ 32) : crcUpdate c l < 2 ^ 32 := by
  induction l generalizing c with
  | nil => exact hc
  | cons b t ih =>
    exact ih _ (crcUpdateByte_lt _ _ hc (hl b (by simp)))
      (fun x hx => hl x (by simp [hx]))

theorem crcUpdate_state_inj (l : List Nat) (c₁ c₂ : Nat)
    (h₁ : c₁ < 2 ^ 32) (h₂ : c₂ < 2 ^ 32) (hl : ∀ b ∈ l, b < 2 ^ 32)
    (h : crcUpdate c₁ l = crcUpdate c₂ l) : c₁ = c₂ := by
  induction l generalizing c₁ c₂ with
  | nil => exact h
  | cons b t ih =>
    have hb : b < 2 ^ 32 := hl b (by simp)
    exact crcUpdateByte_state_inj b c₁ c₂ hb h₁ h₂
      (ih _ _ (crcUpdateByte_lt _ _ h₁ hb) (crcUpdateByte_lt _ _ h₂ hb)
        (fun x hx => hl x (by simp [hx])) h)

theorem crc32_lt (l : List Nat) (hl : ∀ b ∈ l, b < 2 ^ 32) :
    crc32 l < 2 ^ 32 :=
  Nat.xor_lt_two_pow (crcUpdate_lt l _ (by decide) hl) (by decide)

/-- Changing exactly one byte of the input changes its CRC-32. -/
theorem crc32_flip_ne (pre post : List Nat) (b b' : Nat)
    (hb : b < 2 ^ 32) (hb' : b' < 2 ^ 32) (hne : b ≠ b')
    (hpre : ∀ x ∈ pre, x < 2 ^ 32) (hpost : ∀ x ∈ post, x < 2 ^ 32) :
    crc32 (pre ++ b :: post) ≠ crc32 (pre ++ b' :: post) := by
  intro heq
  unfold crc32 at heq
  have h1 : crcUpdate 0xFFFFFFFF (pre ++ b :: post)
      = crcUpdate 0xFFFFFFFF (pre ++ b' :: post) := by
    rw [← Nat.xor_cancel_right 0xFFFFFFFF (crcUpdate 0xFFFFFFFF (pre ++ b :: post)),
        heq, Nat.xor_cancel_right]
  rw [crcUpdate_append, crcUpdate_append] at h1
  have hc0 : crcUpdate 0xFFFFFFFF pre < 2 ^ 32 :=
    crcUpdate_lt pre _ (by decide) hpre
  have h2 : crcUpdateByte (crcUpdate 0xFFFFFFFF pre) b
      = crcUpdateByte (crcUpdate 0xFFFFFFFF pre) b' :=
    crcUpdate_state_inj post _ _
      (crcUpdateByte_lt _ _ hc0 hb) (crcUpdateByte_lt _ _ hc0 hb') hpost h1
  exact hne (crcUpdateByte_byte_inj _ _ _ hc0 hb hb' h2)

/-! ## Record codec lemmas -/

theorem crcUpdate_flatten (ts : List (List Nat)) (c : Nat) :
    ts.foldl (fun acc t => crcUpdate acc t) c = crcUpdate c ts.flatten := by
  induction ts generalizing c with
  | nil => rfl
  | cons t rest ih => rw [List.foldl_cons, List.flatten_cons, crcUpdate_append, ih]

/-- Hashing the tweaks one `update` at a time equals the CRC-32 of their
concatenation (CRC-32 is a streaming hash). -/
theorem crcOfTweaks_eq_crc32 (ts : List (List Nat)) :
    crcOfTweaks ts = crc32 ts.flatten := by
  unfold crcOfTweaks crc32
  rw [crcUpdate_flatten]

theorem flatten_length_uniform (ts : List (List Nat))
    (h : ∀ t ∈ ts, t.length = 33) : ts.flatten.length = ts.length * 33 := by
  induction ts with
  | nil => rfl
  | cons t rest ih =>
    rw [List.flatten_cons, List.length_append, h t (by simp),
        ih (fun x hx => h x (by simp [hx])), List.length_cons]
    ring

/-- `BlockData::deserialize` applied to a well-formed frame
`hash(32) ++ count(4) ++ crc(4) ++ payload(count·33)`: it reduces to the
checksum comparison. -/
theorem deserialize_shape (hash : List Nat) (n c : Nat) (payload : List Nat)
    (hh : hash.length = 32) (hp : payload.length = n * 33) (hn : n < 2 ^ 32) :
    BlockData.deserialize (hash ++ (u32le n ++ (u32le c ++ payload))) =
      if crc32 payload ≠ c % 2 ^ 32 then .error .CrcMismatch
      else .ok { blockhash := hash,
                 tweaks := (List.range n).map
                   (fun i => (payload.drop (i * TWEAK_SIZE)).take TWEAK_SIZE) } := by
  have hlen : (hash ++ (u32le n ++ (u32le c ++ payload))).length = 40 + n * 33 := by
    simp only [List.length_append, hh, hp, u32le_length]
    omega
  have htake32 : (hash ++ (u32le n ++ (u32le c ++ payload))).take 32 = hash :=
    List.take_left' hh
  have hdrop32 : (hash ++ (u32le n ++ (u32le c ++ payload))).drop 32
      = u32le n ++ (u32le c ++ payload) := List.drop_left' hh
  have hdrop36 : (hash ++ (u32le n ++ (u32le c ++ payload))).drop 36
      = u32le c ++ payload := by
    rw [show (36 : Nat) = 32 + 4 from rfl, ← List.drop_drop, hdrop32,
        List.drop_left' (u32le_length n)]
  have hdrop40 : (hash ++ (u32le n ++ (u32le c ++ payload))).drop 40 = payload := by
    rw [show (40 : Nat) = 36 + 4 from rfl, ← List.drop_drop, hdrop36,
        List.drop_left' (u32le_length c)]
  simp only [BlockData.deserialize, TWEAK_SIZE, hlen, htake32, hdrop32, hdrop36,
    hdrop40]
  rw [List.take_left' (u32le_length n), List.take_left' (u32le_length c),
      fromLe_u32le, fromLe_u32le, Nat.mod_eq_of_lt hn]
  rw [if_neg (by omega), if_neg (by omega), if_neg (by omega), if_neg (by omega)]
  rw [List.take_of_length_le (le_of_eq hp)]

/-- Cutting the concatenation of 33-byte tweaks back into 33-byte pieces
recovers the original list, in order. -/
theorem chunksOfFlatten (ts : List (List Nat)) (h : ∀ t ∈ ts, t.length = 33) :
    (List.range ts.length).map (fun i => ((ts.flatten).drop (i * 33)).take 33)
      = ts := by
  induction ts with
  | nil => simp
  | cons t rest ih =>
    have ht : t.length = 33 := h t (by simp)
    have hrest : ∀ x ∈ rest, x.length = 33 := fun x hx => h x (by simp [hx])
    rw [List.length_cons, List.range_succ_eq_map, List.map_cons, List.map_map]
    congr 1
    · rw [Nat.zero_mul, List.drop_zero, List.flatten_cons, List.take_left' ht]
    · have hpt : ∀ i ∈ List.range rest.length,
          (((fun i => (((t :: rest).flatten).drop (i * 33)).take 33) ∘ Nat.succ) i)
            = ((rest.flatten).drop (i * 33)).take 33 := by
        intro i _
        have hstep : Nat.succ i * 33 = t.length + i * 33 := by
          rw [ht]; omega
        simp only [Function.comp_apply, List.flatten_cons, hstep, List.drop_append]
      rw [List.map_congr_left hpt, ih hrest]

theorem serialize_assoc (bd : BlockData) :
    bd.serialize = bd.blockhash ++ (u32le bd.tweaks.length
      ++ (u32le (crcOfTweaks bd.tweaks) ++ bd.tweaks.flatten)) := by
  simp [BlockData.serialize, List.append_assoc]

/-- Decompose a list around position `i`. -/
theorem list_split_at (l : List Nat) (i : Nat) (h : i < l.length) (d : Nat) :
    l = l.take i ++ l.getD i d :: l.drop (i + 1) := by
  induction l generalizing i with
  | nil => simp at h
  | cons a t ih =>
    cases i with
    | zero => simp
    | succ j =>
      simp only [List.take_succ_cons, List.drop_succ_cons, List.getD_cons_succ,
        List.cons_append, List.cons.injEq, true_and]
      exact ih j (by simpa using h)

/-- `zip` only consumes the common prefix of its arguments. -/
theorem zip_eq_zip_take {α β : Type} (as : List α) (bs : List β) :
    as.zip bs = (as.take (min as.length bs.length)).zip
      (bs.take (min as.length bs.length)) := by
  induction as generalizing bs with
  | nil => simp
  | cons a as ih =>
    cases bs with
    | nil => simp
    | cons b bs =>
      simp only [List.length_cons, Nat.succ_min_succ, List.take_succ_cons,
        List.zip_cons_cons]
      exact congrArg (List.cons (a, b)) (ih bs)

/-! ## Streaming-reader lemmas -/

theorem take_append_drop_take_length (l : List Nat) (n : Nat) :
    l.take n ++ l.drop (l.take n).length = l := by
  rcases le_or_lt l.length n with h | h
  · rw [List.take_of_length_le h, List.drop_length, List.append_nil]
  · rw [List.length_take, min_eq_left h.le, List.take_append_drop]

theorem streamFrom_next (files : List (List Nat)) (i pos : Nat)
    (hempty : (files.getD i []).drop pos = [])
    (hlt : i + 1 < files.length) :
    streamFrom files (i + 1) 8 = streamFrom files i pos := by
  unfold streamFrom
  rw [hempty, List.nil_append, List.drop_eq_getElem_cons hlt, List.map_cons,
    List.flatten_cons, List.getD_eq_getElem _ _ hlt]

theorem streamFrom_out (files : List (List Nat)) (i pos : Nat)
    (hge : files.length ≤ i) : streamFrom files i pos = [] := by
  unfold streamFrom
  rw [List.getD_eq_default _ _ hge,
      List.drop_eq_nil_of_le (by omega : files.length ≤ i + 1)]
  simp

theorem streamFrom_ended (files : List (List Nat)) (i pos : Nat)
    (hempty : (files.getD i []).drop pos = [])
    (hge : files.length ≤ i + 1) : streamFrom files i pos = [] := by
  unfold streamFrom
  rw [hempty, List.nil_append, List.drop_eq_nil_of_le hge]
  simp

/-- One `read` call: the bytes it delivers are exactly the next bytes of
the logical stream (and a zero-byte result means the stream is
exhausted). -/
theorem readerRead_spec (files : List (List Nat)) (r : BlockDataReader)
    (n : Nat) (hn : 1 ≤ n) :
    (readerRead files r n).1
        ++ streamFrom files (readerRead files r n).2.current_file_number
            (readerRead files r n).2.current_position
      = streamFrom files r.current_file_number r.current_position
    ∧ ((readerRead files r n).1 = []
        → streamFrom files r.current_file_number r.current_position = []) := by
  induction r, n using readerRead.induct files with
  | case1 r n fd chunk hchunk hlt ih =>
    specialize ih hn
    have hempty : (files.getD r.current_file_number []).drop r.current_position
        = [] := by
      rcases List.take_eq_nil_iff.mp (List.length_eq_zero.mp hchunk) with h | h
      · omega
      · exact h
    have hstep := streamFrom_next files r.current_file_number
      r.current_position hempty hlt
    rw [readerRead.eq_def]
    dsimp only
    rw [if_pos hchunk, dif_pos hlt]
    constructor
    · rw [ih.1]
      exact hstep
    · intro h
      rw [← hstep]
      exact ih.2 h
  | case2 r n fd chunk hchunk hnlt =>
    have hempty : (files.getD r.current_file_number []).drop r.current_position
        = [] := by
      rcases List.take_eq_nil_iff.mp (List.length_eq_zero.mp hchunk) with h | h
      · omega
      · exact h
    have hend : streamFrom files r.current_file_number r.current_position = [] :=
      streamFrom_ended files _ _ hempty (by omega)
    rw [readerRead.eq_def]
    dsimp only
    rw [if_pos hchunk, dif_neg hnlt]
    dsimp only
    constructor
    · rw [List.nil_append, hend]
      exact streamFrom_out files _ _ (by omega)
    · intro _
      exact hend
  | case3 r n fd chunk hne =>
    rw [readerRead.eq_def]
    dsimp only
    rw [if_neg hne]
    constructor
    · show chunk ++ streamFrom files r.current_file_number
          (r.current_position + chunk.length)
        = streamFrom files r.current_file_number r.current_position
      unfold streamFrom
      rw [← List.append_assoc, ← List.drop_drop, take_append_drop_take_length]
    · intro h
      exact absurd ((congrArg List.length h).trans rfl) hne

/-- `read_to_end` delivers the whole remaining logical stream, given
enough fuel. -/
theorem readAll_correct (files : List (List Nat)) (n : Nat) (hn : 1 ≤ n) :
    ∀ (fuel : Nat) (r : BlockDataReader),
      (streamFrom files r.current_file_number r.current_position).length < fuel →
      readAll files r fuel n
        = streamFrom files r.current_file_number r.current_position := by
  intro fuel
  induction fuel with
  | zero =>
    intro r h
    exact absurd h (Nat.not_lt_zero _)
  | succ f ih =>
    intro r hlen
    obtain ⟨h1, h2⟩ := readerRead_spec files r n hn
    unfold readAll
    by_cases hz : (readerRead files r n).1.length = 0
    · rw [if_pos hz, (h2 (List.length_eq_zero.mp hz)).symm]
    · rw [if_neg hz]
      have hsum : (readerRead files r n).1.length
          + (streamFrom files (readerRead files r n).2.current_file_number
              (readerRead files r n).2.current_position).length
          = (streamFrom files r.current_file_number
              r.current_position).length := by
        rw [← h1, List.length_append]
      rw [ih (readerRead files r n).2 (by omega)]
      exact h1

theorem flatten_parts (parts : List (List BlockData)) :
    (parts.map (fun p => (p.map BlockData.serialize).flatten)).flatten
      = ((parts.flatten).map BlockData.serialize).flatten := by
  induction parts with
  | nil => rfl
  | cons p ps ih =>
    simp only [List.map_cons, List.flatten_cons, List.map_append,
      List.flatten_append, ih]

theorem streamFrom_fileOf (parts : List (List BlockData)) (hne : parts ≠ []) :
    streamFrom (parts.map fileOf) 0 8
      = ((parts.flatten).map BlockData.serialize).flatten := by
  cases parts with
  | nil => exact absurd rfl hne
  | cons p ps =>
    unfold streamFrom
    rw [← flatten_parts]
    simp only [List.map_cons, List.getD_cons_zero, List.flatten_cons]
    have hdrop : ∀ q : List BlockData, (fileOf q).drop 8
        = (q.map BlockData.serialize).flatten := fun q =>
      List.drop_left' (rfl : MAGIC_BYTES.length = 8)
    rw [show (0 + 1 : Nat) = 1 from rfl, show ((fileOf p :: ps.map fileOf).drop 1
        : List (List Nat)) = ps.map fileOf from rfl, hdrop p, List.map_map]
    have hmaps : ps.map ((fun f => f.drop 8) ∘ fileOf)
        = ps.map (fun q => (q.map BlockData.serialize).flatten) :=
      List.map_congr_left (fun q _ => hdrop q)
    rw [hmaps]

/-- Characterization of `add_block` on a one-file store whose active file
is too full: rotation fires, the new file 1 holds only the magic header,
the record lands in the old file 0 via the stale `file_path`, and the
index entry pairs file number 1 with the old offset. -/
theorem add_block_rotation_general (f0 : List Nat) (idx : Index)
    (bd : BlockData) (h : Nat)
    (hcond : f0.length + bd.serialize.length ≥ MAX_BLOCKDATA_SIZE)
    (hh : h = idx.next_height) :
    FlatFileStore.add_block ⟨[f0], idx, 0⟩ bd h
      = (.ok (),
         { files := [f0 ++ bd.serialize, MAGIC_BYTES],
           index :=
             { index_db := insertKV idx.index_db bd.blockhash
                 (IndexEntry.serialize
                   ⟨1, f0.length, bd.serialize.length⟩),
               height_to_hash := insertKV idx.height_to_hash h bd.blockhash,
               hash_to_height := insertKV idx.hash_to_height bd.blockhash
                 (u32le h),
               next_height := idx.next_height + 1 },
           current_file_number := 1 }) := by
  subst hh
  simp [FlatFileStore.add_block, FlatFileStore.create_new_file, writeFileTrunc,
    Index.insert_block, hcond]

/-! ## Claim theorems -/

/-- C2: for every `BlockData` record (a 32-byte hash and any ordered list of
33-byte tweaks — bytes being values below 256 — including the empty list,
with fewer than `2 ^ 32` tweaks so the `u32` count field is exact),
`deserialize (serialize r)` succeeds and returns `r`, tweak order
preserved. -/
theorem blockdata_roundtrip (bd : BlockData)
    (hh : bd.blockhash.length = 32)
    (ht : ∀ t ∈ bd.tweaks, t.length = 33)
    (hb : ∀ t ∈ bd.tweaks, ∀ x ∈ t, x < 256)
    (hn : bd.tweaks.length < 2 ^ 32) :
    BlockData.deserialize bd.serialize = .ok bd := by
  have hp : bd.tweaks.flatten.length = bd.tweaks.length * 33 :=
    flatten_length_uniform _ ht
  have hbytes : ∀ x ∈ bd.tweaks.flatten, x < 2 ^ 32 := by
    intro x hx
    rcases List.mem_flatten.mp hx with ⟨t, htm, hxt⟩
    exact lt_trans (hb t htm x hxt) (by decide)
  rw [serialize_assoc, deserialize_shape _ _ _ _ hh hp hn,
      crcOfTweaks_eq_crc32, Nat.mod_eq_of_lt (crc32_lt _ hbytes)]
  rw [if_neg (by simp)]
  simp only [TWEAK_SIZE]
  rw [chunksOfFlatten _ ht]

/-- Witness for C2 at a concrete one-tweak record. -/
theorem blockdata_roundtrip_witness :
    BlockData.deserialize bdB.serialize = .ok bdB :=
  blockdata_roundtrip bdB (by decide) (by decide) (by decide) (by decide)

/-- C6: flipping any single bit (`k < 8`) of any byte in the tweak payload
region (position `40 + i`, `i < 33 · count`) of a serialized record makes
`deserialize` fail with the checksum-mismatch error; it never succeeds
with altered data. -/
theorem checksum_bit_flip (bd : BlockData) (i k : Nat)
    (hh : bd.blockhash.length = 32)
    (ht : ∀ t ∈ bd.tweaks, t.length = 33)
    (hb : ∀ t ∈ bd.tweaks, ∀ x ∈ t, x < 256)
    (hn : bd.tweaks.length < 2 ^ 32)
    (hi : i < 33 * bd.tweaks.length) (hk : k < 8) :
    BlockData.deserialize (flipBitAt bd.serialize (40 + i) k)
      = .error .CrcMismatch := by
  have hp : bd.tweaks.flatten.length = bd.tweaks.length * 33 :=
    flatten_length_uniform _ ht
  have hbytes : ∀ x ∈ bd.tweaks.flatten, x < 2 ^ 32 := by
    intro x hx
    rcases List.mem_flatten.mp hx with ⟨t, htm, hxt⟩
    exact lt_trans (hb t htm x hxt) (by decide)
  have hiF : i < bd.tweaks.flatten.length := by omega
  -- the flip touches only the payload
  have hgetD : bd.serialize.getD (40 + i) 0 = bd.tweaks.flatten.getD i 0 := by
    rw [serialize_assoc]
    rw [List.getD_append_right _ _ _ _ (by rw [hh]; omega)]
    rw [List.getD_append_right _ _ _ _ (by simp [hh]; omega)]
    rw [List.getD_append_right _ _ _ _ (by simp [hh]; omega)]
    congr 1
    simp [hh]
    omega
  have hset : ∀ v : Nat, bd.serialize.set (40 + i) v
      = bd.blockhash ++ (u32le bd.tweaks.length
        ++ (u32le (crcOfTweaks bd.tweaks) ++ bd.tweaks.flatten.set i v)) := by
    intro v
    rw [serialize_assoc]
    rw [List.set_append, if_neg (by rw [hh]; omega)]
    rw [List.set_append, if_neg (by simp [hh]; omega)]
    rw [List.set_append, if_neg (by simp [hh]; omega)]
    simp only [hh, u32le_length]
    rw [show 40 + i - 32 - 4 - 4 = i from by omega]
  have hb0 : bd.tweaks.flatten.getD i 0 < 2 ^ 32 := by
    rw [List.getD_eq_getElem _ _ hiF]
    exact hbytes _ (List.getElem_mem hiF)
  have hbflip : bd.tweaks.flatten.getD i 0 ^^^ 2 ^ k < 2 ^ 32 :=
    Nat.xor_lt_two_pow hb0 (Nat.pow_lt_pow_right (by norm_num) (by omega))
  have hneq : bd.tweaks.flatten.getD i 0 ≠ bd.tweaks.flatten.getD i 0 ^^^ 2 ^ k := by
    intro hcontra
    have h2 : bd.tweaks.flatten.getD i 0 ^^^ (bd.tweaks.flatten.getD i 0 ^^^ 2 ^ k)
        = 2 ^ k := by rw [← Nat.xor_assoc, Nat.xor_self, Nat.zero_xor]
    rw [← hcontra, Nat.xor_self] at h2
    have := Nat.two_pow_pos k
    omega
  unfold flipBitAt
  rw [hgetD, hset]
  have hp' : (bd.tweaks.flatten.set i (bd.tweaks.flatten.getD i 0 ^^^ 2 ^ k)).length
      = bd.tweaks.length * 33 := by rw [List.length_set, hp]
  rw [deserialize_shape _ _ _ _ hh hp' hn]
  have hcne : crc32 (bd.tweaks.flatten.set i (bd.tweaks.flatten.getD i 0 ^^^ 2 ^ k))
      ≠ crc32 bd.tweaks.flatten := by
    have hdecomp := list_split_at bd.tweaks.flatten i hiF 0
    have hsetF : bd.tweaks.flatten.set i (bd.tweaks.flatten.getD i 0 ^^^ 2 ^ k)
        = bd.tweaks.flatten.take i ++ (bd.tweaks.flatten.getD i 0 ^^^ 2 ^ k)
          :: bd.tweaks.flatten.drop (i + 1) := by
      rw [List.set_eq_take_append_cons_drop, if_pos hiF]
    rw [hsetF]
    conv_rhs => rw [hdecomp]
    exact crc32_flip_ne _ _ _ _ hbflip hb0 (Ne.symm hneq)
      (fun x hx => hbytes x (List.mem_of_mem_take hx))
      (fun x hx => hbytes x (List.mem_of_mem_drop hx))
  rw [crcOfTweaks_eq_crc32, Nat.mod_eq_of_lt (crc32_lt _ hbytes), if_pos hcne]

/-- Witness for C6: flip the lowest bit of the first payload byte of a
concrete one-tweak record. -/
theorem checksum_bit_flip_witness :
    BlockData.deserialize (flipBitAt bdB.serialize (40 + 0) 0)
      = .error .CrcMismatch :=
  checksum_bit_flip bdB 0 0 (by decide) (by decide) (by decide) (by decide)
    (by decide) (by decide)

/-- C3: inserting a block at height `h` into an index expecting `h'` fails
with the invalid-height error and leaves the state (all three mappings and
the next expected height) unchanged when `h ≠ h'`; when `h = h'` it
succeeds, stores height→hash, hash→height and hash→entry, and advances the
next expected height to `h' + 1`. -/
theorem insert_block_spec (i : Index) (h : Nat) (hash : List Nat)
    (e : IndexEntry) :
    (h ≠ i.next_height → i.insert_block h hash e = (.error .InvalidHeight, i)) ∧
    (h = i.next_height →
      (i.insert_block h hash e).1 = .ok () ∧
      (i.insert_block h hash e).2.height_to_hash h = some hash ∧
      (i.insert_block h hash e).2.hash_to_height hash = some (u32le h) ∧
      (i.insert_block h hash e).2.index_db hash = some e.serialize ∧
      (i.insert_block h hash e).2.next_height = i.next_height + 1) := by
  constructor
  · intro hne
    simp [Index.insert_block, hne]
  · intro heq
    simp [Index.insert_block, heq, insertKV]

/-- Witness for C3: on a fresh index, inserting at height 1 fails and
inserting at height 0 succeeds and advances. -/
theorem insert_block_spec_witness :
    emptyIndex.insert_block 1 hashA entryA = (.error .InvalidHeight, emptyIndex) ∧
    (emptyIndex.insert_block 0 hashA entryA).1 = .ok () ∧
    (emptyIndex.insert_block 0 hashA entryA).2.next_height = 1 :=
  ⟨(insert_block_spec emptyIndex 1 hashA entryA).1 (by decide),
   ((insert_block_spec emptyIndex 0 hashA entryA).2 rfl).1,
   ((insert_block_spec emptyIndex 0 hashA entryA).2 rfl).2.2.2.2⟩

/-- C4: after a successful tip insertion `insert_block(h, H, E)` followed by
a successful `remove_block(H)`: `get_block_entry(H)` reports orphaned (not
not-found), both height/hash lookups report not-found, and the current
height drops by exactly one. -/
theorem orphan_semantics (i : Index) (h : Nat) (H : List Nat) (E : IndexEntry)
    (hh : h = i.next_height) (hlt : h < 2 ^ 32) :
    ((i.insert_block h H E).2.remove_block H).1 = .ok () ∧
    ((i.insert_block h H E).2.remove_block H).2.get_block_entry H
      = .error .OrphanedEntry ∧
    ((i.insert_block h H E).2.remove_block H).2.get_blockhash_by_height h
      = .error .EntryNotFound ∧
    ((i.insert_block h H E).2.remove_block H).2.get_height_by_blockhash H
      = .error .EntryNotFound ∧
    ((i.insert_block h H E).2.remove_block H).2.get_current_height
      = (i.insert_block h H E).2.get_current_height - 1 := by
  subst hh
  have hmod : i.next_height % 4294967296 = i.next_height :=
    Nat.mod_eq_of_lt (by omega)
  have hnle : ¬ (4294967296 ≤ i.next_height) := by omega
  simp [Index.insert_block, Index.remove_block, Index.get_height_by_blockhash,
    Index.get_block_entry, Index.get_blockhash_by_height,
    Index.get_current_height, insertKV, removeKV, fromLe_u32le, hmod, hnle]

/-- Witness for C4 at height 0 on a fresh index. -/
theorem orphan_semantics_witness :
    ((emptyIndex.insert_block 0 hashA entryA).2.remove_block hashA).1 = .ok () ∧
    ((emptyIndex.insert_block 0 hashA entryA).2.remove_block hashA).2.get_block_entry hashA
      = .error .OrphanedEntry ∧
    ((emptyIndex.insert_block 0 hashA entryA).2.remove_block hashA).2.get_blockhash_by_height 0
      = .error .EntryNotFound ∧
    ((emptyIndex.insert_block 0 hashA entryA).2.remove_block hashA).2.get_height_by_blockhash hashA
      = .error .EntryNotFound ∧
    ((emptyIndex.insert_block 0 hashA entryA).2.remove_block hashA).2.get_current_height
      = (emptyIndex.insert_block 0 hashA entryA).2.get_current_height - 1 :=
  orphan_semantics emptyIndex 0 hashA entryA rfl (by decide)

/-- C5: removing a block that is present in the index but is not the tip
(its height differs from `next_height - 1`) fails with the invalid-height
error and leaves the index — every mapping, every stored height — entirely
unchanged. -/
theorem tip_only_retraction (i : Index) (H : List Nat) (hgt : Nat)
    (hnone : (i.index_db H).isNone = false)
    (hget : i.get_height_by_blockhash H = .ok hgt)
    (hne : hgt ≠ i.next_height - 1) :
    i.remove_block H = (.error .InvalidHeight, i) := by
  simp [Index.remove_block, hnone, hget, hne]

/-- Witness for C5: blocks at heights 0 and 1; removing the hash of
height 0 fails with invalid-height and the state is untouched (so height 1
is still present). -/
theorem tip_only_retraction_witness :
    ((emptyIndex.insert_block 0 hashA entryA).2.insert_block 1 hashB entryA).2.remove_block hashA
      = (.error .InvalidHeight,
         ((emptyIndex.insert_block 0 hashA entryA).2.insert_block 1 hashB entryA).2) :=
  tip_only_retraction _ hashA 0 (by decide) (by decide) (by decide)

/-- C9 (implicit): once a hash has been orphaned by a successful
`remove_block`, a second `remove_block` on the same hash returns the
not-found error (not orphaned) and leaves the index state — orphan
sentinel and next expected height included — unchanged. -/
theorem remove_twice_not_found (i i' : Index) (H : List Nat)
    (h : i.remove_block H = (.ok (), i')) :
    i'.remove_block H = (.error .EntryNotFound, i') := by
  unfold Index.remove_block at h
  split at h
  · simp at h
  · split at h
    · split at h
      · simp at h
      · simp only [Prod.mk.injEq, true_and] at h
        subst h
        simp [Index.remove_block, Index.get_height_by_blockhash, insertKV,
          removeKV]
    · simp at h

/-- Witness for C9: insert height 0, remove it, remove again. -/
theorem remove_twice_not_found_witness :
    (((emptyIndex.insert_block 0 hashA entryA).2.remove_block hashA).2).remove_block hashA
      = (.error .EntryNotFound,
         ((emptyIndex.insert_block 0 hashA entryA).2.remove_block hashA).2) :=
  remove_twice_not_found (emptyIndex.insert_block 0 hashA entryA).2 _ hashA rfl

/-- C10 (implicit): `add_block_bulk` applies exactly the first
`min (blocks.length) (heights.length)` pairs in order — surplus entries of
the longer slice are silently ignored — and returns success whenever those
applied pairs all succeed. -/
theorem add_block_bulk_min (st : FlatFileStore) (blocks : List BlockData)
    (heights : List Nat) :
    st.add_block_bulk blocks heights
      = st.add_block_bulk (blocks.take (min blocks.length heights.length))
          (heights.take (min blocks.length heights.length)) ∧
    ((addBlocksPairs st ((blocks.take (min blocks.length heights.length)).zip
        (heights.take (min blocks.length heights.length)))).1 = .ok () →
      (st.add_block_bulk blocks heights).1 = .ok ()) := by
  have hz := zip_eq_zip_take blocks heights
  constructor
  · unfold FlatFileStore.add_block_bulk
    rw [hz]
  · intro hok
    unfold FlatFileStore.add_block_bulk
    rw [hz]
    exact hok

/-- Witness for C10: two records, one height — the second record is
ignored and the call succeeds. -/
theorem add_block_bulk_min_witness :
    (freshStore.add_block_bulk [bdA, bdB] [0]).1 = .ok () :=
  (add_block_bulk_min freshStore [bdA, bdB] [0]).2 (by decide)

/-- C1 (code-bug exhibit): on a store whose active file 0 has
`MAX_BLOCKDATA_SIZE - 40` bytes, adding the 40-byte record `bdA` rotates —
a new file 1 is created holding only the magic header — but the record's
bytes are appended to the *old* file 0 (the stale `file_path`), and the
recorded `IndexEntry` pairs the new file number 1 with the old file's
offset `MAX_BLOCKDATA_SIZE - 40` instead of the magic-marker length 8. -/
theorem add_block_rotation_bug :
    (rotStore.add_block bdA 0).1 = .ok () ∧
    (rotStore.add_block bdA 0).2.current_file_number = 1 ∧
    (rotStore.add_block bdA 0).2.files.getD 1 [] = MAGIC_BYTES ∧
    (rotStore.add_block bdA 0).2.files.getD 0 [] = fullFile ++ bdA.serialize ∧
    (rotStore.add_block bdA 0).2.index.get_block_entry bdA.blockhash
      = .ok { file_number := 1, offset := 134217688, length := 40 } := by
  have hserlen : bdA.serialize.length = 40 := rfl
  have hfull : fullFile.length = 134217688 := by
    unfold fullFile
    rw [List.length_append, List.length_replicate]
    rfl
  have hrt : IndexEntry.deserialize
      (IndexEntry.serialize ⟨1, 134217688, 40⟩) = some ⟨1, 134217688, 40⟩ :=
    indexEntry_roundtrip _ (by decide) (by decide) (by decide)
  have hser24 : (IndexEntry.serialize ⟨1, 134217688, 40⟩).length = 24 := by
    simp [IndexEntry.serialize]
  have hgen := add_block_rotation_general fullFile emptyIndex bdA 0
    (by rw [hfull, hserlen]; decide) rfl
  rw [show rotStore = ⟨[fullFile], emptyIndex, 0⟩ from rfl, hgen, hfull, hserlen]
  refine ⟨rfl, rfl, rfl, rfl, ?_⟩
  simp [Index.get_block_entry, insertKV, hser24, hrt]

/-- C7: for every sequence of records laid out in order across two or more
physical files (file `j` holding the back-to-back serialized records
`parts[j]` after its 8-byte magic header), reading from the first record's
location — file 0, offset 8 — through the boundary-crossing streaming
reader until exhaustion yields exactly the concatenation of all the
serialized record bytes: no bytes missing, none duplicated, and no
magic-marker bytes of any subsequent file in the output.  `fuel` bounds
the read loop (any bound beyond the stream length works) and `n` is the
read-buffer size. -/
theorem cross_file_streaming (parts : List (List BlockData)) (fuel n : Nat)
    (hparts : 2 ≤ parts.length) (hn : 1 ≤ n)
    (hfuel : (streamFrom (parts.map fileOf) 0 8).length < fuel) :
    readAll (parts.map fileOf) ⟨0, 8⟩ fuel n
      = ((parts.flatten).map BlockData.serialize).flatten := by
  have hne : parts ≠ [] := by
    intro h
    rw [h] at hparts
    simp at hparts
  rw [readAll_correct (parts.map fileOf) n hn fuel ⟨0, 8⟩ hfuel]
  exact streamFrom_fileOf parts hne

/-- Witness for C7: three records over two files, buffer size 5. -/
theorem cross_file_streaming_witness :
    readAll ([[bdA], [bdA, bdA]].map fileOf) ⟨0, 8⟩ 200 5
      = (([[bdA], [bdA, bdA]].flatten).map BlockData.serialize).flatten :=
  cross_file_streaming [[bdA], [bdA, bdA]] 200 5 (by decide) (by decide)
    (by decide)

/-- C8 (code-bug exhibit): a block-data directory at the absolute path
`/data/block_data` lacking `sps000000.dat` but containing `sps000001.dat`
passes the scan (file 0 is then created) instead of failing with the
corrupt-store error: the source tests `DirEntry::path()` — the full path —
against the prefix `"sps"`, which never matches. -/
theorem initialize_gap_not_detected :
    initializeBlockDataScan
      ['/', 'd', 'a', 't', 'a', '/', 'b', 'l', 'o', 'c', 'k', '_', 'd', 'a',
       't', 'a'] [blockFileName 1] = .ok () := by
  decide

end SilentServer
